import Mathlib

/-!
Verification of the `paycare` ETL pipeline (`etl.py`).

The pipeline is: `extract_data` (pd.read_csv), `transform_data`
(dropna + derived `tax` / `net_salary` columns), `load_data` (to_csv),
sequenced by `etl_process`.

Embedding notes:
* A pandas `DataFrame` is modeled as a `Table`: an ordered list of column
  names together with a list of rows, each row a list of cells aligned
  positionally with the column names.  The DataFrame invariant (all columns
  have the same length) is `Table.WF`.
* A cell is `Option Value`: `none` is the missing marker (NaN).  A present
  value is either numeric (modeled as an exact rational, standing for the
  float) or a string (the object-dtype value `pd.read_csv` keeps for a
  field that does not parse as a number).
* Arithmetic on a series (`salary * 0.1`, `salary - tax`) is elementwise
  and raises `TypeError` as soon as a string value is involved; a raised
  exception is modeled as `none` at the series-operation level, which
  `transform_data`'s `try/except` converts into the overall failure value.
* `df[name]` raises `KeyError` when `name` is not a column; `df[name] = v`
  overwrites the column in place when `name` exists and appends a new last
  column otherwise (pandas `__setitem__`).
-/

/-- A present cell value: a number (exact rational, standing for the float
read from the CSV) or a non-numeric string kept by the lenient parser. -/
inductive Value where
  | num (q : ℚ)
  | str (s : String)
deriving DecidableEq

/-- A cell: `none` is the missing marker (NaN). -/
abbrev Cell := Option Value

/-- An in-memory table: ordered named columns, rows of positionally
aligned cells. -/
structure Table where
  cols : List String
  rows : List (List Cell)
deriving DecidableEq

/-- DataFrame invariant: every row has exactly one cell per column. -/
def Table.WF (t : Table) : Prop :=
  ∀ r ∈ t.rows, r.length = t.cols.length

instance (t : Table) : Decidable t.WF := by
  unfold Table.WF; infer_instance

/-- `nthD xs i d`: the `i`-th element of `xs`, or `d` past the end. -/
def nthD {α : Type} : List α → Nat → α → α
  | [], _, d => d
  | x :: _, 0, _ => x
  | _ :: xs, i + 1, d => nthD xs i d

/-- First index of `n` in a list of column names (pandas column lookup). -/
def idxOf? (n : String) : List String → Option Nat
  | [] => none
  | c :: cs => if c = n then some 0 else (idxOf? n cs).map (· + 1)

/-- A row is complete when no cell is the missing marker (`dropna` keeps
exactly these rows). -/
def rowComplete (r : List Cell) : Bool :=
  r.all (fun c => c.isSome)

/-- `df.dropna()`: drop every row containing at least one missing cell,
in any column; returns a new frame, the argument is unchanged. -/
def dropna (t : Table) : Table :=
  ⟨t.cols, t.rows.filter rowComplete⟩

/-- `df[name]` as a column of cells; `none` models the `KeyError` raised
when no column has that name. -/
def getCol? (t : Table) (name : String) : Option (List Cell) :=
  match idxOf? name t.cols with
  | some j => some (t.rows.map (fun r => nthD r j none))
  | none => none

/-- Pair each row with its new cell for that row. -/
def zipRows (f : List Cell → Cell → List Cell) :
    List (List Cell) → List Cell → List (List Cell)
  | r :: rs, v :: vs => f r v :: zipRows f rs vs
  | _, _ => []

/-- `df[name] = vals` (pandas `__setitem__`): overwrite the column in
place when `name` is already a column, append it as a new last column
otherwise. -/
def setCol (t : Table) (name : String) (vals : List Cell) : Table :=
  match idxOf? name t.cols with
  | some j => ⟨t.cols, zipRows (fun r v => r.set j v) t.rows vals⟩
  | none => ⟨t.cols ++ [name], zipRows (fun r v => r ++ [v]) t.rows vals⟩

/-- The cell a row holds under a given column name (first occurrence). -/
def rowVal (cols : List String) (name : String) (r : List Cell) : Cell :=
  match idxOf? name cols with
  | some j => nthD r j none
  | none => none

/-- Is the cell a string value (object dtype, fails on float arithmetic)? -/
def strCell : Cell → Bool
  | some (Value.str _) => true
  | _ => false

/-- Does the named column exist and hold only numbers / missing markers
(a numeric dtype column)? -/
def colNumeric (t : Table) (name : String) : Bool :=
  match getCol? t name with
  | some vs => vs.all (fun c => !strCell c)
  | none => false

/-- One cell of `series * 0.1`: NaN propagates, a number is scaled, a
string raises `TypeError` (modeled as `none`). -/
def cellMulTenth : Cell → Option Cell
  | none => some none
  | some (Value.num q) => some (some (Value.num (q * (1 / 10))))
  | some (Value.str _) => none

/-- `series * 0.1`, elementwise; `none` models the `TypeError` raised as
soon as any element is a string. -/
def seriesMulTenth : List Cell → Option (List Cell)
  | [] => some []
  | c :: cs =>
    match cellMulTenth c, seriesMulTenth cs with
    | some v, some vs => some (v :: vs)
    | _, _ => none

/-- One cell of `series - series`: NaN propagates, numbers subtract, a
string raises `TypeError`. -/
def cellSub : Cell → Cell → Option Cell
  | some (Value.str _), _ => none
  | _, some (Value.str _) => none
  | some (Value.num a), some (Value.num b) => some (some (Value.num (a - b)))
  | none, _ => some none
  | _, none => some none

/-- Elementwise `series₁ - series₂` on equal-length, identically indexed
series. -/
def seriesSub : List Cell → List Cell → Option (List Cell)
  | [], [] => some []
  | a :: as, b :: bs =>
    match cellSub a b, seriesSub as bs with
    | some v, some vs => some (v :: vs)
    | _, _ => none
  | _, _ => none

/-- `transform_data` (etl.py lines 15-31): drop incomplete rows, then
`data_cleaned['tax'] = data_cleaned['salary'] * 0.1` and
`data_cleaned['net_salary'] = data_cleaned['salary'] - data_cleaned['tax']`;
any exception inside the body (KeyError on a missing `salary` column,
TypeError on string arithmetic) is caught and turned into `none`. -/
def transform_data (data : Table) : Option Table :=
  let data_cleaned := dropna data
  match getCol? data_cleaned "salary" with
  | none => none
  | some sal =>
    match seriesMulTenth sal with
    | none => none
    | some taxVals =>
      let dc1 := setCol data_cleaned "tax" taxVals
      match getCol? dc1 "salary", getCol? dc1 "tax" with
      | some sal1, some tax1 =>
        match seriesSub sal1 tax1 with
        | none => none
        | some netVals => some (setCol dc1 "net_salary" netVals)
      | _, _ => none

/-- `etl_process` (etl.py lines 43-48), given the result of
`extract_data` (`none` when extraction failed): returns the list of
stages actually invoked and the table handed to `load_data` (`none` when
`load_data` was never called, i.e. no output file is written). -/
def etl_process (extracted : Option Table) : List String × Option Table :=
  match extracted with
  | none => (["extract"], none)
  | some data =>
    match transform_data data with
    | none => (["extract", "transform"], none)
    | some transformed => (["extract", "transform", "load"], some transformed)

/-- How one cell is rendered by `to_csv` (NaN renders empty). -/
def renderCell : Cell → String
  | none => ""
  | some (Value.num q) => toString q
  | some (Value.str s) => s

/-- `data.to_csv(path, index=False)`: header line then one line per row. -/
def serializeCSV (t : Table) : String :=
  String.intercalate "\n"
    (String.intercalate "," t.cols ::
      t.rows.map (fun r => String.intercalate "," (r.map renderCell)))

/-! ### Indexing lemmas -/

theorem nthD_set_self {α : Type} :
    ∀ (l : List α) (i : Nat) (v d : α), i < l.length → nthD (l.set i v) i d = v
  | [], i, _, _, h => absurd h (Nat.not_lt_zero i)
  | _ :: _, 0, _, _, _ => rfl
  | _ :: xs, i + 1, v, d, h => nthD_set_self xs i v d (Nat.lt_of_succ_lt_succ h)

theorem nthD_set_ne {α : Type} :
    ∀ (l : List α) (i j : Nat) (v d : α), i ≠ j → nthD (l.set j v) i d = nthD l i d
  | [], _, _, _, _, _ => rfl
  | _ :: _, 0, 0, _, _, h => absurd rfl h
  | _ :: _, 0, _ + 1, _, _, _ => rfl
  | _ :: _, _ + 1, 0, _, _, _ => rfl
  | _ :: xs, i + 1, j + 1, v, d, h =>
      nthD_set_ne xs i j v d (fun e => h (by rw [e]))

theorem nthD_append_lt {α : Type} :
    ∀ (l l₂ : List α) (i : Nat) (d : α), i < l.length → nthD (l ++ l₂) i d = nthD l i d
  | [], _, i, _, h => absurd h (Nat.not_lt_zero i)
  | _ :: _, _, 0, _, _ => rfl
  | _ :: xs, l₂, i + 1, d, h => nthD_append_lt xs l₂ i d (Nat.lt_of_succ_lt_succ h)

theorem nthD_append_len {α : Type} :
    ∀ (l : List α) (v d : α), nthD (l ++ [v]) l.length d = v
  | [], _, _ => rfl
  | _ :: xs, v, d => nthD_append_len xs v d

theorem nthD_mem {α : Type} :
    ∀ (l : List α) (i : Nat) (d : α), i < l.length → nthD l i d ∈ l
  | [], i, _, h => absurd h (Nat.not_lt_zero i)
  | x :: xs, 0, _, _ => List.mem_cons_self x xs
  | x :: xs, i + 1, d, h =>
      List.mem_cons_of_mem x (nthD_mem xs i d (Nat.lt_of_succ_lt_succ h))

theorem nthD_map {α β : Type} (g : α → β) :
    ∀ (l : List α) (i : Nat) (d : α) (d' : β), i < l.length →
      nthD (l.map g) i d' = g (nthD l i d)
  | [], i, _, _, h => absurd h (Nat.not_lt_zero i)
  | _ :: _, 0, _, _, _ => rfl
  | _ :: xs, i + 1, d, d', h => nthD_map g xs i d d' (Nat.lt_of_succ_lt_succ h)

theorem nthD_get {α : Type} :
    ∀ (l : List α) (k : Fin l.length) (d : α), nthD l k.val d = l.get k
  | _ :: _, ⟨0, _⟩, _ => rfl
  | _ :: xs, ⟨k + 1, h⟩, d => nthD_get xs ⟨k, Nat.lt_of_succ_lt_succ h⟩ d

/-! ### Column-index lemmas -/

theorem idxOf?_lt_length {n : String} :
    ∀ {cs : List String} {j : Nat}, idxOf? n cs = some j → j < cs.length := by
  intro cs
  induction cs with
  | nil => intro j h; simp [idxOf?] at h
  | cons c cs ih =>
    intro j h
    by_cases hc : c = n
    · simp only [idxOf?, if_pos hc, Option.some.injEq] at h
      simp only [List.length_cons]
      omega
    · simp only [idxOf?, if_neg hc] at h
      cases hr : idxOf? n cs with
      | none => rw [hr] at h; simp at h
      | some a =>
        rw [hr] at h; simp at h
        subst h
        exact Nat.succ_lt_succ (ih hr)

theorem idxOf?_nthD {n : String} (d : String) :
    ∀ {cs : List String} {j : Nat}, idxOf? n cs = some j → nthD cs j d = n := by
  intro cs
  induction cs with
  | nil => intro j h; simp [idxOf?] at h
  | cons c cs ih =>
    intro j h
    by_cases hc : c = n
    · simp [idxOf?, hc] at h
      subst h; exact hc
    · simp only [idxOf?, if_neg hc] at h
      cases hr : idxOf? n cs with
      | none => rw [hr] at h; simp at h
      | some a =>
        rw [hr] at h; simp at h
        subst h
        exact ih hr

theorem idxOf?_eq_none_iff {n : String} :
    ∀ {cs : List String}, idxOf? n cs = none ↔ n ∉ cs := by
  intro cs
  induction cs with
  | nil => simp [idxOf?]
  | cons c cs ih =>
    by_cases hc : c = n
    · simp [idxOf?, hc]
    · simp only [idxOf?, if_neg hc, Option.map_eq_none', List.mem_cons]
      rw [ih]
      constructor
      · intro h hor
        rcases hor with h1 | h2
        · exact hc h1.symm
        · exact h h2
      · intro h hm
        exact h (Or.inr hm)

theorem idxOf?_ne {m n : String} {cs : List String} {i j : Nat} (hmn : m ≠ n)
    (hm : idxOf? m cs = some i) (hn : idxOf? n cs = some j) : i ≠ j := by
  intro e
  apply hmn
  rw [← idxOf?_nthD "" hm, e, idxOf?_nthD "" hn]

theorem idxOf?_append_left {n : String} {cs : List String} {j : Nat}
    (h : idxOf? n cs = some j) : ∀ (l : List String), idxOf? n (cs ++ l) = some j := by
  induction cs generalizing j with
  | nil => simp [idxOf?] at h
  | cons c cs ih =>
    intro l
    by_cases hc : c = n
    · simp only [idxOf?, if_pos hc, Option.some.injEq] at h
      simp only [List.cons_append, idxOf?, if_pos hc, h]
    · simp only [idxOf?, if_neg hc] at h
      cases hr : idxOf? n cs with
      | none => rw [hr] at h; simp at h
      | some a =>
        rw [hr] at h; simp at h
        simp only [List.cons_append, idxOf?, if_neg hc, List.append_eq]
        rw [ih hr l]
        simp [h]

theorem idxOf?_append_self {n : String} :
    ∀ {cs : List String}, idxOf? n cs = none → idxOf? n (cs ++ [n]) = some cs.length := by
  intro cs
  induction cs with
  | nil => intro _; simp [idxOf?]
  | cons c cs ih =>
    intro h
    by_cases hc : c = n
    · simp [idxOf?, hc] at h
    · simp only [idxOf?, if_neg hc, Option.map_eq_none'] at h
      simp only [List.cons_append, idxOf?, if_neg hc, List.append_eq]
      rw [ih h]
      simp [List.length_cons]

theorem idxOf?_append_ne {m n : String} (hne : m ≠ n) :
    ∀ {cs : List String}, idxOf? m cs = none → idxOf? m (cs ++ [n]) = none := by
  intro cs
  induction cs with
  | nil =>
    intro _
    simp only [List.nil_append, idxOf?]
    rw [if_neg (fun e => hne e.symm)]
    simp [idxOf?]
  | cons c cs ih =>
    intro h
    by_cases hc : c = m
    · simp [idxOf?, hc] at h
    · simp only [idxOf?, if_neg hc, Option.map_eq_none'] at h
      simp only [List.cons_append, idxOf?, if_neg hc, List.append_eq]
      rw [ih h]
      rfl

/-! ### Row-zipping lemmas -/

theorem zipRows_map_self (f : List Cell → Cell → List Cell) (g : List Cell → Cell) :
    ∀ rs : List (List Cell), zipRows f rs (rs.map g) = rs.map (fun r => f r (g r))
  | [] => rfl
  | r :: rs => congrArg (f r (g r) :: ·) (zipRows_map_self f g rs)

theorem length_zipRows (f : List Cell → Cell → List Cell) :
    ∀ (rs : List (List Cell)) (vs : List Cell), vs.length = rs.length →
      (zipRows f rs vs).length = rs.length
  | [], [], _ => rfl
  | [], _ :: _, h => by simp at h
  | _ :: _, [], h => by simp at h
  | _ :: rs, _ :: vs, h => by
      simp only [zipRows, List.length_cons]
      rw [length_zipRows f rs vs (by simpa using h)]

theorem mem_zipRows {f : List Cell → Cell → List Cell} :
    ∀ {rs : List (List Cell)} {vs : List Cell} {r' : List Cell},
      r' ∈ zipRows f rs vs → ∃ r v, r ∈ rs ∧ r' = f r v := by
  intro rs
  induction rs with
  | nil => intro vs r' h; cases vs <;> simp [zipRows] at h
  | cons r rs ih =>
    intro vs r' h
    cases vs with
    | nil => simp [zipRows] at h
    | cons v vs =>
      simp only [zipRows, List.mem_cons] at h
      rcases h with h | h
      · exact ⟨r, v, List.mem_cons_self r rs, h⟩
      · obtain ⟨r₀, v₀, hr₀, he⟩ := ih h
        exact ⟨r₀, v₀, List.mem_cons_of_mem r hr₀, he⟩

theorem map_nthD_zipRows_set_self (j : Nat) :
    ∀ (rs : List (List Cell)) (vs : List Cell), vs.length = rs.length →
      (∀ r ∈ rs, j < r.length) →
      (zipRows (fun r v => r.set j v) rs vs).map (fun r => nthD r j none) = vs
  | [], [], _, _ => rfl
  | [], _ :: _, h, _ => by simp at h
  | _ :: _, [], h, _ => by simp at h
  | r :: rs, v :: vs, h, hj => by
      simp only [zipRows, List.map]
      rw [nthD_set_self r j v none (hj r (List.mem_cons_self r rs)),
        map_nthD_zipRows_set_self j rs vs (by simpa using h)
          (fun r' hr' => hj r' (List.mem_cons_of_mem _ hr'))]

theorem map_nthD_zipRows_set_ne (i j : Nat) (hij : i ≠ j) :
    ∀ (rs : List (List Cell)) (vs : List Cell),
      (zipRows (fun r v => r.set j v) rs vs).map (fun r => nthD r i none) =
        (rs.take vs.length).map (fun r => nthD r i none)
  | [], [] => rfl
  | [], _ :: _ => rfl
  | _ :: _, [] => rfl
  | r :: rs, v :: vs => by
      simp only [zipRows, List.map, List.length_cons, List.take_succ_cons]
      rw [nthD_set_ne r i j v none hij, map_nthD_zipRows_set_ne i j hij rs vs]

theorem map_nthD_zipRows_append_len (j : Nat) :
    ∀ (rs : List (List Cell)) (vs : List Cell), vs.length = rs.length →
      (∀ r ∈ rs, r.length = j) →
      (zipRows (fun r v => r ++ [v]) rs vs).map (fun r => nthD r j none) = vs
  | [], [], _, _ => rfl
  | [], _ :: _, h, _ => by simp at h
  | _ :: _, [], h, _ => by simp at h
  | r :: rs, v :: vs, h, hj => by
      have hv : nthD (r ++ [v]) j none = v := by
        rw [← hj r (List.mem_cons_self r rs)]
        exact nthD_append_len r v none
      simp only [zipRows, List.map]
      rw [hv, map_nthD_zipRows_append_len j rs vs (by simpa using h)
        (fun r' hr' => hj r' (List.mem_cons_of_mem _ hr'))]

theorem map_nthD_zipRows_append_lt (i : Nat) :
    ∀ (rs : List (List Cell)) (vs : List Cell), (∀ r ∈ rs, i < r.length) →
      (zipRows (fun r v => r ++ [v]) rs vs).map (fun r => nthD r i none) =
        (rs.take vs.length).map (fun r => nthD r i none)
  | [], [], _ => rfl
  | [], _ :: _, _ => rfl
  | _ :: _, [], _ => rfl
  | r :: rs, v :: vs, hi => by
      simp only [zipRows, List.map, List.length_cons, List.take_succ_cons]
      rw [nthD_append_lt r [v] i none (hi r (List.mem_cons_self r rs)),
        map_nthD_zipRows_append_lt i rs vs
          (fun r' hr' => hi r' (List.mem_cons_of_mem _ hr'))]

/-! ### Column access and update lemmas -/

theorem getCol?_length {t : Table} {n : String} {vs : List Cell}
    (h : getCol? t n = some vs) : vs.length = t.rows.length := by
  unfold getCol? at h
  cases hij : idxOf? n t.cols with
  | none => rw [hij] at h; simp at h
  | some j =>
    rw [hij] at h
    simp only [Option.some.injEq] at h
    rw [← h, List.length_map]

theorem getCol?_isSome_iff {t : Table} {n : String} :
    (getCol? t n).isSome ↔ n ∈ t.cols := by
  unfold getCol?
  cases hij : idxOf? n t.cols with
  | none => simpa using idxOf?_eq_none_iff.mp hij
  | some j =>
    simp only [Option.isSome_some, true_iff]
    by_contra hmem
    rw [idxOf?_eq_none_iff.mpr hmem] at hij
    cases hij

theorem setCol_cols_replace {t : Table} {n : String} {j : Nat}
    (h : idxOf? n t.cols = some j) (vs : List Cell) : (setCol t n vs).cols = t.cols := by
  simp [setCol, h]

theorem setCol_cols_append {t : Table} {n : String}
    (h : idxOf? n t.cols = none) (vs : List Cell) :
    (setCol t n vs).cols = t.cols ++ [n] := by
  simp [setCol, h]

theorem setCol_rows_length {t : Table} {n : String} {vs : List Cell}
    (h : vs.length = t.rows.length) : (setCol t n vs).rows.length = t.rows.length := by
  unfold setCol
  cases hij : idxOf? n t.cols <;> simp [length_zipRows _ _ _ h]

theorem WF_dropna {t : Table} (h : t.WF) : (dropna t).WF := by
  intro r hr
  exact h r (List.mem_of_mem_filter hr)

theorem WF_setCol {t : Table} {n : String} {vs : List Cell} (hwf : t.WF)
    (_h : vs.length = t.rows.length) : (setCol t n vs).WF := by
  unfold setCol
  cases hij : idxOf? n t.cols with
  | some j =>
    intro r' hr'
    obtain ⟨r, v, hr, he⟩ := mem_zipRows hr'
    simp only [he, List.length_set]
    exact hwf r hr
  | none =>
    intro r' hr'
    obtain ⟨r, v, hr, he⟩ := mem_zipRows hr'
    simp only [he, List.length_append, List.length_cons, List.length_nil,
      List.length_append]
    rw [hwf r hr]

theorem getCol?_eq_some_of_idx {t : Table} {m : String} {i : Nat}
    (h : idxOf? m t.cols = some i) :
    getCol? t m = some (t.rows.map (fun r => nthD r i none)) := by
  unfold getCol?
  rw [h]

theorem getCol?_eq_none_of_idx {t : Table} {m : String} (h : idxOf? m t.cols = none) :
    getCol? t m = none := by
  unfold getCol?
  rw [h]

theorem getCol?_setCol_self {t : Table} {n : String} {vs : List Cell} (hwf : t.WF)
    (h : vs.length = t.rows.length) : getCol? (setCol t n vs) n = some vs := by
  cases hij : idxOf? n t.cols with
  | some j =>
    have hj : ∀ r ∈ t.rows, j < r.length := fun r hr =>
      (hwf r hr).symm ▸ idxOf?_lt_length hij
    have hcols : (setCol t n vs).cols = t.cols := setCol_cols_replace hij vs
    rw [getCol?_eq_some_of_idx (t := setCol t n vs) (hcols ▸ hij)]
    have hrows : (setCol t n vs).rows = zipRows (fun r v => r.set j v) t.rows vs := by
      simp [setCol, hij]
    rw [hrows, map_nthD_zipRows_set_self j t.rows vs h hj]
  | none =>
    have hcols : (setCol t n vs).cols = t.cols ++ [n] := setCol_cols_append hij vs
    have hidx : idxOf? n (setCol t n vs).cols = some t.cols.length := by
      rw [hcols]; exact idxOf?_append_self hij
    rw [getCol?_eq_some_of_idx hidx]
    have hrows : (setCol t n vs).rows = zipRows (fun r v => r ++ [v]) t.rows vs := by
      simp [setCol, hij]
    rw [hrows, map_nthD_zipRows_append_len t.cols.length t.rows vs h hwf]

theorem getCol?_setCol_ne {t : Table} {n m : String} {vs : List Cell} (hwf : t.WF)
    (h : vs.length = t.rows.length) (hne : m ≠ n) :
    getCol? (setCol t n vs) m = getCol? t m := by
  cases hij : idxOf? n t.cols with
  | some j =>
    have hcols : (setCol t n vs).cols = t.cols := setCol_cols_replace hij vs
    have hrows : (setCol t n vs).rows = zipRows (fun r v => r.set j v) t.rows vs := by
      simp [setCol, hij]
    cases him : idxOf? m t.cols with
    | none =>
      rw [getCol?_eq_none_of_idx (t := setCol t n vs) (hcols ▸ him),
        getCol?_eq_none_of_idx him]
    | some i =>
      have hij' : i ≠ j := idxOf?_ne hne him hij
      rw [getCol?_eq_some_of_idx (t := setCol t n vs) (hcols ▸ him),
        getCol?_eq_some_of_idx him, hrows,
        map_nthD_zipRows_set_ne i j hij' t.rows vs, h, List.take_length]
  | none =>
    have hcols : (setCol t n vs).cols = t.cols ++ [n] := setCol_cols_append hij vs
    have hrows : (setCol t n vs).rows = zipRows (fun r v => r ++ [v]) t.rows vs := by
      simp [setCol, hij]
    cases him : idxOf? m t.cols with
    | none =>
      have hidx : idxOf? m (setCol t n vs).cols = none := by
        rw [hcols]; exact idxOf?_append_ne hne him
      rw [getCol?_eq_none_of_idx hidx, getCol?_eq_none_of_idx him]
    | some i =>
      have hidx : idxOf? m (setCol t n vs).cols = some i := by
        rw [hcols]; exact idxOf?_append_left him [n]
      have hi : ∀ r ∈ t.rows, i < r.length := fun r hr =>
        (hwf r hr).symm ▸ idxOf?_lt_length him
      rw [getCol?_eq_some_of_idx hidx, getCol?_eq_some_of_idx him, hrows,
        map_nthD_zipRows_append_lt i t.rows vs hi, h, List.take_length]

theorem setCol_mem_cols (t : Table) (n : String) (vs : List Cell) :
    n ∈ (setCol t n vs).cols := by
  unfold setCol
  cases hij : idxOf? n t.cols with
  | some j =>
    by_contra hmem
    rw [idxOf?_eq_none_iff.mpr hmem] at hij
    cases hij
  | none => simp

theorem setCol_mem_cols_of_mem (t : Table) (n m : String) (vs : List Cell)
    (h : m ∈ t.cols) : m ∈ (setCol t n vs).cols := by
  unfold setCol
  cases hij : idxOf? n t.cols with
  | some j => exact h
  | none => exact List.mem_append_left _ h

/-! ### Series arithmetic lemmas -/

/-- Total version of one cell of `salary * 0.1` for numeric cells. -/
def mulTenth (c : Cell) : Cell :=
  match c with
  | some (Value.num q) => some (Value.num (q * (1 / 10)))
  | _ => none

/-- Total version of one cell of `salary - tax` for numeric cells. -/
def subTenth (c : Cell) : Cell :=
  match c with
  | some (Value.num q) => some (Value.num (q - q * (1 / 10)))
  | _ => none

theorem seriesMulTenth_eq_map :
    ∀ {vs : List Cell}, (∀ c ∈ vs, strCell c = false) →
      seriesMulTenth vs = some (vs.map mulTenth) := by
  intro vs
  induction vs with
  | nil => intro _; rfl
  | cons c cs ih =>
    intro h
    have hc : strCell c = false := h c (List.mem_cons_self c cs)
    have hcs := ih (fun c' hc' => h c' (List.mem_cons_of_mem _ hc'))
    cases c with
    | none => simp [seriesMulTenth, cellMulTenth, hcs, mulTenth]
    | some v =>
      cases v with
      | num q => simp [seriesMulTenth, cellMulTenth, hcs, mulTenth]
      | str s => simp [strCell] at hc

theorem seriesMulTenth_none_of_str :
    ∀ {vs : List Cell}, (∃ c ∈ vs, strCell c = true) → seriesMulTenth vs = none := by
  intro vs
  induction vs with
  | nil => intro h; simp at h
  | cons c cs ih =>
    intro h
    rcases h with ⟨c', hc', hs⟩
    rcases List.mem_cons.mp hc' with rfl | hmem
    · cases c' with
      | none => simp [strCell] at hs
      | some v =>
        cases v with
        | num q => simp [strCell] at hs
        | str s => simp [seriesMulTenth, cellMulTenth]
    · rw [seriesMulTenth]
      rw [ih ⟨c', hmem, hs⟩]
      cases cellMulTenth c <;> rfl

theorem seriesMulTenth_length :
    ∀ {vs tv : List Cell}, seriesMulTenth vs = some tv → tv.length = vs.length := by
  intro vs
  induction vs with
  | nil => intro tv h; simp [seriesMulTenth] at h; simp [← h]
  | cons c cs ih =>
    intro tv h
    rw [seriesMulTenth] at h
    cases hc : cellMulTenth c with
    | none => rw [hc] at h; cases h
    | some v =>
      cases hcs : seriesMulTenth cs with
      | none => rw [hc, hcs] at h; cases h
      | some ws =>
        rw [hc, hcs] at h
        simp only [Option.some.injEq] at h
        rw [← h, List.length_cons, List.length_cons, ih hcs]

theorem seriesSub_length :
    ∀ {as bs vs : List Cell}, seriesSub as bs = some vs → vs.length = as.length := by
  intro as
  induction as with
  | nil =>
    intro bs vs h
    cases bs with
    | nil => simp [seriesSub] at h; simp [← h]
    | cons b bs => simp [seriesSub] at h
  | cons a as ih =>
    intro bs vs h
    cases bs with
    | nil => simp [seriesSub] at h
    | cons b bs =>
      rw [seriesSub] at h
      cases hc : cellSub a b with
      | none => rw [hc] at h; cases h
      | some v =>
        cases hcs : seriesSub as bs with
        | none => rw [hc, hcs] at h; cases h
        | some ws =>
          rw [hc, hcs] at h
          simp only [Option.some.injEq] at h
          rw [← h, List.length_cons, List.length_cons, ih hcs]

theorem seriesSub_map {α : Type} (f g k : α → Cell) (P : α → Prop)
    (hstep : ∀ x, P x → cellSub (f x) (g x) = some (k x)) :
    ∀ (L : List α), (∀ x ∈ L, P x) →
      seriesSub (L.map f) (L.map g) = some (L.map k) := by
  intro L
  induction L with
  | nil => intro _; rfl
  | cons x xs ih =>
    intro h
    simp only [List.map]
    rw [seriesSub, hstep x (h x (List.mem_cons_self x xs)),
      ih (fun x' hx' => h x' (List.mem_cons_of_mem _ hx'))]

/-! ### Characterizations of `transform_data` -/

theorem transform_data_some_elim {t t' : Table} (h : transform_data t = some t') :
    ∃ sal taxVals sal1 tax1 netVals,
      getCol? (dropna t) "salary" = some sal ∧
      seriesMulTenth sal = some taxVals ∧
      getCol? (setCol (dropna t) "tax" taxVals) "salary" = some sal1 ∧
      getCol? (setCol (dropna t) "tax" taxVals) "tax" = some tax1 ∧
      seriesSub sal1 tax1 = some netVals ∧
      t' = setCol (setCol (dropna t) "tax" taxVals) "net_salary" netVals := by
  cases h1 : getCol? (dropna t) "salary" with
  | none => simp [transform_data, h1] at h
  | some sal =>
    cases h2 : seriesMulTenth sal with
    | none => simp [transform_data, h1, h2] at h
    | some tv =>
      cases h3 : getCol? (setCol (dropna t) "tax" tv) "salary" with
      | none => simp [transform_data, h1, h2, h3] at h
      | some sal1 =>
        cases h4 : getCol? (setCol (dropna t) "tax" tv) "tax" with
        | none => simp [transform_data, h1, h2, h3, h4] at h
        | some tax1 =>
          cases h5 : seriesSub sal1 tax1 with
          | none => simp [transform_data, h1, h2, h3, h4, h5] at h
          | some nv =>
            simp only [transform_data, h1, h2, h3, h4, h5,
              Option.some.injEq] at h
            exact ⟨sal, tv, sal1, tax1, nv, rfl, h2, h3, h4, h5, h.symm⟩

/-- The value of the `salary` cell of each complete row is a number when
the `salary` column of the input is numeric and the row survives. -/
theorem surviving_salary_num {t : Table} {i : Nat} (hwf : t.WF)
    (hi : idxOf? "salary" t.cols = some i)
    (hnum : ∀ r ∈ t.rows, strCell (nthD r i none) = false) :
    ∀ r ∈ t.rows.filter rowComplete, ∃ q : ℚ, nthD r i none = some (Value.num q) := by
  intro r hr
  have hmem : r ∈ t.rows := List.mem_of_mem_filter hr
  have hcomp : rowComplete r = true := List.of_mem_filter hr
  have hlt : i < r.length := (hwf r hmem).symm ▸ idxOf?_lt_length hi
  have hsome : (nthD r i none).isSome := by
    have := List.all_eq_true.mp hcomp (nthD r i none) (nthD_mem r i none hlt)
    simpa using this
  cases hc : nthD r i none with
  | none => rw [hc] at hsome; cases hsome
  | some v =>
    cases v with
    | num q => exact ⟨q, rfl⟩
    | str s =>
      have := hnum r hmem
      rw [hc] at this
      simp [strCell] at this

/-- Full characterization of a successful transform on a table whose
`salary` column (at index `i`) never holds a string value: the transform
succeeds, and in the output the `salary`, `tax` and `net_salary` columns
are, in order, the surviving salaries, their scaled copies, and the
differences. -/
theorem transform_data_numeric {t : Table} {i : Nat} (hwf : t.WF)
    (hi : idxOf? "salary" t.cols = some i)
    (hnum : ∀ r ∈ t.rows, strCell (nthD r i none) = false) :
    ∃ t', transform_data t = some t' ∧
      getCol? t' "salary" =
        some ((t.rows.filter rowComplete).map (fun r => nthD r i none)) ∧
      getCol? t' "tax" =
        some (((t.rows.filter rowComplete).map (fun r => nthD r i none)).map mulTenth) ∧
      getCol? t' "net_salary" =
        some (((t.rows.filter rowComplete).map (fun r => nthD r i none)).map subTenth) ∧
      t'.rows.length = (t.rows.filter rowComplete).length := by
  set L := t.rows.filter rowComplete with hL
  set f : List Cell → Cell := fun r => nthD r i none with hf
  set sal := L.map f with hsal
  have hdcwf : (dropna t).WF := WF_dropna hwf
  have hdim : idxOf? "salary" (dropna t).cols = some i := hi
  have h1 : getCol? (dropna t) "salary" = some sal :=
    getCol?_eq_some_of_idx (t := dropna t) hdim
  have hsalnum : ∀ c ∈ sal, ∃ q : ℚ, c = some (Value.num q) := by
    intro c hc
    obtain ⟨r, hr, rfl⟩ := List.mem_map.mp hc
    exact surviving_salary_num hwf hi hnum r hr
  have hsalstr : ∀ c ∈ sal, strCell c = false := by
    intro c hc
    obtain ⟨q, rfl⟩ := hsalnum c hc
    rfl
  have h2 : seriesMulTenth sal = some (sal.map mulTenth) :=
    seriesMulTenth_eq_map hsalstr
  have hsallen : sal.length = (dropna t).rows.length := by
    simp [hsal, dropna, hL]
  have htvlen : (sal.map mulTenth).length = (dropna t).rows.length := by
    rw [List.length_map]; exact hsallen
  have h3 : getCol? (setCol (dropna t) "tax" (sal.map mulTenth)) "salary" = some sal := by
    rw [getCol?_setCol_ne hdcwf htvlen (by decide), h1]
  have h4 : getCol? (setCol (dropna t) "tax" (sal.map mulTenth)) "tax" =
      some (sal.map mulTenth) :=
    getCol?_setCol_self hdcwf htvlen
  have h5 : seriesSub sal (sal.map mulTenth) = some (sal.map subTenth) := by
    have hmm : sal.map mulTenth = L.map (fun r => mulTenth (f r)) := by
      rw [hsal, List.map_map]; rfl
    have hms : sal.map subTenth = L.map (fun r => subTenth (f r)) := by
      rw [hsal, List.map_map]; rfl
    rw [hmm, hms, hsal]
    apply seriesSub_map f (fun r => mulTenth (f r)) (fun r => subTenth (f r))
      (fun r => ∃ q : ℚ, f r = some (Value.num q))
    · intro x hx
      obtain ⟨q, hq⟩ := hx
      rw [hq]
      rfl
    · intro r hr
      exact surviving_salary_num hwf hi hnum r hr
  set dc1 := setCol (dropna t) "tax" (sal.map mulTenth) with hdc1
  have hdc1wf : dc1.WF := WF_setCol hdcwf htvlen
  have hdc1len : dc1.rows.length = (dropna t).rows.length :=
    setCol_rows_length htvlen
  have hnetlen : (sal.map subTenth).length = dc1.rows.length := by
    rw [List.length_map, hsallen, hdc1len]
  refine ⟨setCol dc1 "net_salary" (sal.map subTenth), ?_, ?_, ?_, ?_, ?_⟩
  · simp only [transform_data, h1, h2, h3, h4, h5]
  · rw [getCol?_setCol_ne hdc1wf hnetlen (by decide), h3]
  · rw [getCol?_setCol_ne hdc1wf hnetlen (by decide), h4]
  · rw [getCol?_setCol_self hdc1wf hnetlen]
  · rw [setCol_rows_length hnetlen, hdc1len]
    simp [dropna, hL]

/-! ### A small object store, to state the no-mutation (frame) property -/

/-- A store of live DataFrame objects; a reference is an index into it. -/
structure Heap where
  tables : List Table

/-- Dereference (a dangling reference yields a dummy empty table). -/
def Heap.read (h : Heap) (r : Nat) : Table :=
  nthD h.tables r ⟨[], []⟩

/-- In-place mutation of the object behind a reference. -/
def Heap.write (h : Heap) (r : Nat) (t : Table) : Heap :=
  ⟨h.tables.set r t⟩

/-- Allocate a fresh object, returning its reference. -/
def Heap.alloc (h : Heap) (t : Table) : Heap × Nat :=
  (⟨h.tables ++ [t]⟩, h.tables.length)

/-- `transform_data` with object identity made explicit: `data.dropna()`
allocates a fresh frame `data_cleaned`, and each column assignment
mutates `data_cleaned` in place; the argument object `data` is never
written.  Returns the final store and a reference to the result. -/
def transform_data_heap (h : Heap) (data : Nat) : Heap × Option Nat :=
  let (h1, dc) := h.alloc (dropna (h.read data))
  match getCol? (h1.read dc) "salary" with
  | none => (h1, none)
  | some sal =>
    match seriesMulTenth sal with
    | none => (h1, none)
    | some taxVals =>
      let h2 := h1.write dc (setCol (h1.read dc) "tax" taxVals)
      match getCol? (h2.read dc) "salary", getCol? (h2.read dc) "tax" with
      | some sal1, some tax1 =>
        match seriesSub sal1 tax1 with
        | none => (h2, none)
        | some netVals =>
          (h2.write dc (setCol (h2.read dc) "net_salary" netVals), some dc)
      | _, _ => (h2, none)

/-- C10: `transform_data` never mutates its argument.  In the explicit
object store, with `data` a live reference: after running the transform
the object behind `data` is unchanged (dropna allocates a copy and both
column assignments write only to that copy), and the returned reference
holds exactly the value of the pure `transform_data` on the argument. -/
theorem claim10_transform_no_mutation (h : Heap) (data : Nat)
    (hlt : data < h.tables.length) :
    (transform_data_heap h data).1.read data = h.read data ∧
    ((transform_data_heap h data).2).map (transform_data_heap h data).1.read =
      transform_data (h.read data) := by
  have hne : data ≠ h.tables.length := Nat.ne_of_lt hlt
  have hlen1 : h.tables.length < (h.tables ++ [dropna (h.read data)]).length := by
    simp
  have hr1 : ∀ t₀ : Table, Heap.read ⟨h.tables ++ [t₀]⟩ data = h.read data := by
    intro t₀
    simp only [Heap.read]
    exact nthD_append_lt _ _ _ _ hlt
  have hrdc1 : ∀ t₀ : Table, Heap.read ⟨h.tables ++ [t₀]⟩ h.tables.length = t₀ := by
    intro t₀
    simp only [Heap.read]
    exact nthD_append_len _ _ _
  have hrw : ∀ (h₀ : Heap) (t₀ : Table),
      Heap.read (h₀.write h.tables.length t₀) data = h₀.read data := by
    intro h₀ t₀
    simp only [Heap.read, Heap.write]
    exact nthD_set_ne _ _ _ _ _ hne
  have hrwdc : ∀ (h₀ : Heap) (t₀ : Table), h.tables.length < h₀.tables.length →
      Heap.read (h₀.write h.tables.length t₀) h.tables.length = t₀ := by
    intro h₀ t₀ hl
    simp only [Heap.read, Heap.write]
    exact nthD_set_self _ _ _ _ hl
  cases hg1 : getCol? (dropna (h.read data)) "salary" with
  | none =>
    constructor
    · simp only [transform_data_heap, Heap.alloc, hrdc1, hg1]
      exact hr1 _
    · simp only [transform_data_heap, Heap.alloc, transform_data, hrdc1, hg1,
        Option.map_none']
  | some sal =>
    cases hg2 : seriesMulTenth sal with
    | none =>
      constructor
      · simp only [transform_data_heap, Heap.alloc, hrdc1, hg1, hg2]
        exact hr1 _
      · simp only [transform_data_heap, Heap.alloc, transform_data, hrdc1, hg1, hg2,
          Option.map_none']
    | some tv =>
      have hw2 : Heap.read
          (Heap.write ⟨h.tables ++ [dropna (h.read data)]⟩ h.tables.length
            (setCol (dropna (h.read data)) "tax" tv)) h.tables.length =
          setCol (dropna (h.read data)) "tax" tv :=
        hrwdc _ _ hlen1
      cases hg3 : getCol? (setCol (dropna (h.read data)) "tax" tv) "salary" with
      | none =>
        constructor
        · simp only [transform_data_heap, Heap.alloc, hrdc1, hg1, hg2, hw2, hg3]
          rw [hrw, hr1]
        · simp only [transform_data_heap, Heap.alloc, transform_data, hrdc1, hg1,
            hg2, hw2, hg3, Option.map_none']
      | some sal1 =>
        cases hg4 : getCol? (setCol (dropna (h.read data)) "tax" tv) "tax" with
        | none =>
          constructor
          · simp only [transform_data_heap, Heap.alloc, hrdc1, hg1, hg2, hw2, hg3, hg4]
            rw [hrw, hr1]
          · simp only [transform_data_heap, Heap.alloc, transform_data, hrdc1, hg1,
              hg2, hw2, hg3, hg4, Option.map_none']
        | some tax1 =>
          cases hg5 : seriesSub sal1 tax1 with
          | none =>
            constructor
            · simp only [transform_data_heap, Heap.alloc, hrdc1, hg1, hg2, hw2, hg3,
                hg4, hg5]
              rw [hrw, hr1]
            · simp only [transform_data_heap, Heap.alloc, transform_data, hrdc1, hg1,
                hg2, hw2, hg3, hg4, hg5, Option.map_none']
          | some nv =>
            have hlen2 : h.tables.length <
                (Heap.write ⟨h.tables ++ [dropna (h.read data)]⟩ h.tables.length
                  (setCol (dropna (h.read data)) "tax" tv)).tables.length := by
              simp only [Heap.write, List.length_set]
              exact hlen1
            have hw3 : Heap.read
                (Heap.write
                  (Heap.write ⟨h.tables ++ [dropna (h.read data)]⟩ h.tables.length
                    (setCol (dropna (h.read data)) "tax" tv))
                  h.tables.length
                  (setCol (setCol (dropna (h.read data)) "tax" tv) "net_salary" nv))
                h.tables.length =
                setCol (setCol (dropna (h.read data)) "tax" tv) "net_salary" nv :=
              hrwdc _ _ hlen2
            constructor
            · simp only [transform_data_heap, Heap.alloc, hrdc1, hg1, hg2, hw2, hg3,
                hg4, hg5]
              rw [hrw, hrw, hr1]
            · simp only [transform_data_heap, Heap.alloc, transform_data, hrdc1, hg1,
                hg2, hw2, hg3, hg4, hg5, Option.map_some', hw3]

/-! ### Per-row access helpers -/

theorem getCol?_inv {t : Table} {n : String} {vs : List Cell}
    (h : getCol? t n = some vs) :
    ∃ j, idxOf? n t.cols = some j ∧ vs = t.rows.map (fun r => nthD r j none) := by
  unfold getCol? at h
  cases hij : idxOf? n t.cols with
  | none => rw [hij] at h; cases h
  | some j =>
    rw [hij] at h
    injection h with h
    exact ⟨j, rfl, h.symm⟩

theorem rowVal_get {t : Table} {n : String} {vs : List Cell}
    (h : getCol? t n = some vs) (k : Fin t.rows.length) :
    rowVal t.cols n (t.rows.get k) = nthD vs k.val none := by
  obtain ⟨j, hj, rfl⟩ := getCol?_inv h
  unfold rowVal
  rw [hj, nthD_map (fun r => nthD r j none) t.rows k.val ([] : List Cell) none k.isLt,
    nthD_get t.rows k ([] : List Cell)]

/-! ### The claims -/

/-- C1: for every well-formed input table whose `salary` column is numeric
(numbers or missing markers only), `transform_data` succeeds and every row
of the output satisfies `tax = salary * 0.1` and
`net_salary = salary - tax` exactly, with no rounding (values are exact
rationals in this model). -/
theorem claim1_derived_columns_exact (t : Table) (hwf : t.WF)
    (hnum : colNumeric t "salary" = true) :
    ∃ t', transform_data t = some t' ∧
      ∀ r ∈ t'.rows, ∃ q : ℚ,
        rowVal t'.cols "salary" r = some (Value.num q) ∧
        rowVal t'.cols "tax" r = some (Value.num (q * (1 / 10))) ∧
        rowVal t'.cols "net_salary" r = some (Value.num (q - q * (1 / 10))) := by
  unfold colNumeric at hnum
  cases hg : getCol? t "salary" with
  | none => rw [hg] at hnum; cases hnum
  | some vs0 =>
    rw [hg] at hnum
    obtain ⟨i, hidx, hvs0⟩ := getCol?_inv hg
    have hnum' : ∀ r ∈ t.rows, strCell (nthD r i none) = false := by
      intro r hr
      have hmem : nthD r i none ∈ vs0 := by
        rw [hvs0]
        exact List.mem_map.mpr ⟨r, hr, rfl⟩
      have := List.all_eq_true.mp hnum _ hmem
      simpa using this
    obtain ⟨t', htr, hsalc, htaxc, hnetc, hlen⟩ :=
      transform_data_numeric hwf hidx hnum'
    refine ⟨t', htr, ?_⟩
    intro r hr
    obtain ⟨k, hk⟩ := List.mem_iff_get.mp hr
    subst hk
    set sal := (t.rows.filter rowComplete).map (fun r => nthD r i none) with hsaldef
    have hklt : k.val < sal.length := by
      rw [getCol?_length hsalc] at *
      exact lt_of_lt_of_eq k.isLt rfl
    have hcell : nthD sal k.val none ∈ sal := nthD_mem sal k.val none hklt
    obtain ⟨r₀, hr₀, hcq⟩ := List.mem_map.mp (hsaldef ▸ hcell)
    obtain ⟨q, hq⟩ := surviving_salary_num hwf hidx hnum' r₀ hr₀
    have hcq' : nthD sal k.val none = some (Value.num q) := by rw [← hcq, hq]
    refine ⟨q, ?_, ?_, ?_⟩
    · rw [rowVal_get hsalc k, hcq']
    · rw [rowVal_get htaxc k,
        nthD_map mulTenth sal k.val none none hklt, hcq']
      rfl
    · rw [rowVal_get hnetc k,
        nthD_map subTenth sal k.val none none hklt, hcq']
      rfl

/-- C1 witness: the derived-column property instantiated on a concrete
one-row numeric table. -/
theorem claim1_witness :
    (⟨["salary"], [[some (Value.num 100)]]⟩ : Table).WF ∧
    colNumeric ⟨["salary"], [[some (Value.num 100)]]⟩ "salary" = true ∧
    (∃ t', transform_data ⟨["salary"], [[some (Value.num 100)]]⟩ = some t' ∧
      ∀ r ∈ t'.rows, ∃ q : ℚ,
        rowVal t'.cols "salary" r = some (Value.num q) ∧
        rowVal t'.cols "tax" r = some (Value.num (q * (1 / 10))) ∧
        rowVal t'.cols "net_salary" r = some (Value.num (q - q * (1 / 10)))) :=
  ⟨by decide, by decide,
    claim1_derived_columns_exact _ (by decide) (by decide)⟩

/-- C2: whenever `transform_data` succeeds, the output row count equals
the number of input rows with no missing cell in any column (all columns
participate in the completeness check). -/
theorem claim2_row_count (t t' : Table) (h : transform_data t = some t') :
    t'.rows.length = t.rows.countP (fun r => rowComplete r) := by
  obtain ⟨sal, tv, sal1, tax1, nv, h1, h2, h3, h4, h5, ht'⟩ :=
    transform_data_some_elim h
  have hsallen : sal.length = (dropna t).rows.length := getCol?_length h1
  have htvlen : tv.length = (dropna t).rows.length := by
    rw [seriesMulTenth_length h2, hsallen]
  have hdc1len : (setCol (dropna t) "tax" tv).rows.length = (dropna t).rows.length :=
    setCol_rows_length htvlen
  have hsal1len : sal1.length = (setCol (dropna t) "tax" tv).rows.length :=
    getCol?_length h3
  have hnvlen : nv.length = (setCol (dropna t) "tax" tv).rows.length := by
    rw [seriesSub_length h5, hsal1len]
  rw [ht', setCol_rows_length hnvlen, hdc1len]
  show (t.rows.filter rowComplete).length = _
  rw [List.countP_eq_length_filter]

/-- C2 witness: row counting on a concrete table whose only row is
incomplete. -/
theorem claim2_witness :
    transform_data
        ⟨["salary", "age"], [[some (Value.num 80000), none]]⟩ =
      some ⟨["salary", "age", "tax", "net_salary"], []⟩ ∧
    (⟨["salary", "age", "tax", "net_salary"], []⟩ : Table).rows.length =
      (⟨["salary", "age"], [[some (Value.num 80000), none]]⟩ : Table).rows.countP
        (fun r => rowComplete r) :=
  ⟨by decide, claim2_row_count _ _ (by decide)⟩

/-- C3 counterexample: on an input that already has a `tax` column, the
assignment overwrites that column in place instead of appending a copy,
so the output column sequence is not the input columns followed by
`tax`, `net_salary`. -/
theorem claim3_counterexample :
    (transform_data
        ⟨["tax", "salary"],
          [[some (Value.num 100), some (Value.num 200)]]⟩).map Table.cols =
      some ["tax", "salary", "net_salary"] ∧
    some ["tax", "salary", "net_salary"] ≠
      some (["tax", "salary"] ++ ["tax", "net_salary"]) := by
  decide

/-- C3 (amended): provided the input has no column already named `tax` or
`net_salary`, a successful transform's output columns are the input
columns in their original order followed by `tax` then `net_salary`,
regardless of input column count or order.  (When such a column does
exist, pandas column assignment overwrites it in place instead.) -/
theorem claim3_column_append (t t' : Table) (htax : "tax" ∉ t.cols)
    (hnet : "net_salary" ∉ t.cols) (h : transform_data t = some t') :
    t'.cols = t.cols ++ ["tax", "net_salary"] := by
  obtain ⟨sal, tv, sal1, tax1, nv, h1, h2, h3, h4, h5, ht'⟩ :=
    transform_data_some_elim h
  have hitax : idxOf? "tax" (dropna t).cols = none := idxOf?_eq_none_iff.mpr htax
  have hc1 : (setCol (dropna t) "tax" tv).cols = t.cols ++ ["tax"] :=
    setCol_cols_append hitax tv
  have hinet : idxOf? "net_salary" (setCol (dropna t) "tax" tv).cols = none := by
    apply idxOf?_eq_none_iff.mpr
    rw [hc1]
    intro hmem
    rcases List.mem_append.mp hmem with hm | hm
    · exact hnet hm
    · simp at hm
  rw [ht', setCol_cols_append hinet, hc1, List.append_assoc]
  rfl

/-- C3 witness: the amended column-order invariant on a concrete table. -/
theorem claim3_witness :
    "tax" ∉ (⟨["salary"], [[none]]⟩ : Table).cols ∧
    "net_salary" ∉ (⟨["salary"], [[none]]⟩ : Table).cols ∧
    transform_data ⟨["salary"], [[none]]⟩ =
      some ⟨["salary", "tax", "net_salary"], []⟩ ∧
    (⟨["salary", "tax", "net_salary"], []⟩ : Table).cols =
      (⟨["salary"], [[none]]⟩ : Table).cols ++ ["tax", "net_salary"] :=
  ⟨by decide, by decide, by decide,
    claim3_column_append _ _ (by decide) (by decide) (by decide)⟩

/-- C4: without a `salary` column the transform fails as a whole (the
check is structural: `data_cleaned['salary']` raises before any row is
processed), and the driver then never calls `load_data`, so no output
file is written. -/
theorem claim4_missing_salary (t : Table) (h : "salary" ∉ t.cols) :
    transform_data t = none ∧
    etl_process (some t) = (["extract", "transform"], none) := by
  have hidx : idxOf? "salary" (dropna t).cols = none := idxOf?_eq_none_iff.mpr h
  have htr : transform_data t = none := by
    simp [transform_data, getCol?_eq_none_of_idx (t := dropna t) hidx]
  exact ⟨htr, by simp [etl_process, htr]⟩

/-- C4 witness: missing-salary failure on a concrete table. -/
theorem claim4_witness :
    "salary" ∉ (⟨["id"], [[some (Value.num 1)]]⟩ : Table).cols ∧
    (transform_data ⟨["id"], [[some (Value.num 1)]]⟩ = none ∧
      etl_process (some ⟨["id"], [[some (Value.num 1)]]⟩) =
        (["extract", "transform"], none)) :=
  ⟨by decide, claim4_missing_salary _ (by decide)⟩

/-- C5: the driver short-circuits: a failed extraction means neither the
transform nor the load stage is invoked, and a failed transform means the
load stage is not invoked; each stage failure is terminal. -/
theorem claim5_short_circuit :
    etl_process none = (["extract"], none) ∧
    ∀ d : Table, transform_data d = none →
      etl_process (some d) = (["extract", "transform"], none) := by
  constructor
  · rfl
  · intro d hd
    simp [etl_process, hd]

/-- C5 witness: short-circuiting instantiated on a concrete failing
transform input. -/
theorem claim5_witness :
    etl_process none = (["extract"], none) ∧
    etl_process (some ⟨["id"], [[some (Value.num 2)]]⟩) =
      (["extract", "transform"], none) :=
  ⟨claim5_short_circuit.1, claim5_short_circuit.2 _ (by decide)⟩

/-- C6: a header-only input (zero data rows) containing a `salary` column
is valid: the transform succeeds, the output has zero rows, and its
header contains the `tax` and `net_salary` columns. -/
theorem claim6_empty_input (t : Table) (hsal : "salary" ∈ t.cols)
    (hrows : t.rows = []) :
    ∃ t', transform_data t = some t' ∧ t'.rows = [] ∧
      "tax" ∈ t'.cols ∧ "net_salary" ∈ t'.cols := by
  have hwf : t.WF := by
    intro r hr
    rw [hrows] at hr
    cases hr
  cases hidx : idxOf? "salary" t.cols with
  | none => exact absurd hsal (idxOf?_eq_none_iff.mp hidx)
  | some i =>
    have hnum : ∀ r ∈ t.rows, strCell (nthD r i none) = false := by
      intro r hr
      rw [hrows] at hr
      cases hr
    obtain ⟨t', htr, hsalc, htaxc, hnetc, hlen⟩ :=
      transform_data_numeric hwf hidx hnum
    refine ⟨t', htr, ?_, ?_, ?_⟩
    · apply List.eq_nil_of_length_eq_zero
      rw [hlen, hrows]
      rfl
    · apply getCol?_isSome_iff.mp
      rw [htaxc]
      rfl
    · apply getCol?_isSome_iff.mp
      rw [hnetc]
      rfl

/-- C6 witness: the empty-input edge case on a concrete header-only
table. -/
theorem claim6_witness :
    "salary" ∈ (⟨["id", "salary"], []⟩ : Table).cols ∧
    (∃ t', transform_data ⟨["id", "salary"], []⟩ = some t' ∧ t'.rows = [] ∧
      "tax" ∈ t'.cols ∧ "net_salary" ∈ t'.cols) :=
  ⟨by decide, claim6_empty_input _ (by decide) rfl⟩

/-- C7: the completeness filter is stable: in a successful transform,
every column other than the two derived names `tax` and `net_salary`
reads in the output exactly as it reads in the filtered input — the
surviving rows, in their original relative order, with unchanged
values. -/
theorem claim7_stable_filter (t t' : Table) (hwf : t.WF)
    (h : transform_data t = some t') :
    ∀ c : String, c ≠ "tax" → c ≠ "net_salary" →
      getCol? t' c = getCol? (dropna t) c := by
  obtain ⟨sal, tv, sal1, tax1, nv, h1, h2, h3, h4, h5, ht'⟩ :=
    transform_data_some_elim h
  have hdcwf : (dropna t).WF := WF_dropna hwf
  have hsallen : sal.length = (dropna t).rows.length := getCol?_length h1
  have htvlen : tv.length = (dropna t).rows.length := by
    rw [seriesMulTenth_length h2, hsallen]
  have hdc1wf : (setCol (dropna t) "tax" tv).WF := WF_setCol hdcwf htvlen
  have hsal1len : sal1.length = (setCol (dropna t) "tax" tv).rows.length :=
    getCol?_length h3
  have hnvlen : nv.length = (setCol (dropna t) "tax" tv).rows.length := by
    rw [seriesSub_length h5, hsal1len]
  intro c hct hcn
  rw [ht', getCol?_setCol_ne hdc1wf hnvlen hcn, getCol?_setCol_ne hdcwf htvlen hct]

/-- C7 witness: stability of the filter instantiated on a concrete
table. -/
theorem claim7_witness :
    (⟨["salary", "age"], [[some (Value.num 3), none]]⟩ : Table).WF ∧
    transform_data ⟨["salary", "age"], [[some (Value.num 3), none]]⟩ =
      some ⟨["salary", "age", "tax", "net_salary"], []⟩ ∧
    (∀ c : String, c ≠ "tax" → c ≠ "net_salary" →
      getCol? ⟨["salary", "age", "tax", "net_salary"], []⟩ c =
        getCol? (dropna ⟨["salary", "age"], [[some (Value.num 3), none]]⟩) c) :=
  ⟨by decide, by decide, claim7_stable_filter _ _ (by decide) (by decide)⟩

/-- C8 counterexample: with an unparsable (string) salary value the
transform stage fails as a whole (the claim asserts it does not fail
there), and no table is handed to the load stage. -/
theorem claim8_counterexample :
    transform_data ⟨["salary"], [[some (Value.str "abc")]]⟩ = none ∧
    (etl_process (some ⟨["salary"], [[some (Value.str "abc")]]⟩)).2 = none := by
  decide

/-- C8 (amended): an unparsable `salary` value is indeed accepted at read
time — it sits in the table as a present string cell, is not a missing
marker, and survives the completeness filter — but once the tax
arithmetic reaches it, the entire transform stage fails (returns the
failure value); it does not propagate as a missing-equivalent result. -/
theorem claim8_string_salary_fails (t : Table) (i : Nat)
    (hi : idxOf? "salary" t.cols = some i)
    (hs : t.rows.any (fun r => rowComplete r && strCell (nthD r i none)) = true) :
    transform_data t = none := by
  obtain ⟨r, hr, hrs⟩ := List.any_eq_true.mp hs
  rw [Bool.and_eq_true] at hrs
  have h1 : getCol? (dropna t) "salary" =
      some ((dropna t).rows.map (fun r => nthD r i none)) :=
    getCol?_eq_some_of_idx (t := dropna t) hi
  have hmem : nthD r i none ∈ (dropna t).rows.map (fun r => nthD r i none) :=
    List.mem_map.mpr ⟨r, List.mem_filter.mpr ⟨hr, hrs.1⟩, rfl⟩
  have h2 : seriesMulTenth ((dropna t).rows.map (fun r => nthD r i none)) = none :=
    seriesMulTenth_none_of_str ⟨nthD r i none, hmem, hrs.2⟩
  simp [transform_data, h1, h2]

/-- C8 witness: the transform fails on a concrete table with a string
salary cell. -/
theorem claim8_witness :
    idxOf? "salary" (⟨["salary"], [[some (Value.str "zz")]]⟩ : Table).cols = some 0 ∧
    (⟨["salary"], [[some (Value.str "zz")]]⟩ : Table).rows.any
      (fun r => rowComplete r && strCell (nthD r 0 none)) = true ∧
    transform_data ⟨["salary"], [[some (Value.str "zz")]]⟩ = none :=
  ⟨by decide, by decide, claim8_string_salary_fails _ 0 (by decide) (by decide)⟩

/-- C9: the pipeline is deterministic: two runs on equal extraction
results produce identical serialized output files (in particular a second
run on the same input writes a byte-identical file). -/
theorem claim9_deterministic (e₁ e₂ : Option Table) (h : e₁ = e₂) :
    ((etl_process e₁).2).map serializeCSV = ((etl_process e₂).2).map serializeCSV := by
  rw [h]

/-- C9 witness: determinism instantiated on a concrete extraction
result. -/
theorem claim9_witness :
    (some (⟨["salary"], [[some (Value.num 7)]]⟩ : Table) =
      some (⟨["salary"], [[some (Value.num 7)]]⟩ : Table)) ∧
    ((etl_process (some ⟨["salary"], [[some (Value.num 7)]]⟩)).2).map serializeCSV =
      ((etl_process (some ⟨["salary"], [[some (Value.num 7)]]⟩)).2).map serializeCSV :=
  ⟨rfl, claim9_deterministic _ _ rfl⟩

/-- C10 witness: the no-mutation property instantiated on a concrete
store holding one table. -/
theorem claim10_witness :
    0 < (Heap.mk [⟨["salary"], [[some (Value.num 5)]]⟩]).tables.length ∧
    ((transform_data_heap (Heap.mk [⟨["salary"], [[some (Value.num 5)]]⟩]) 0).1.read 0 =
      (Heap.mk [⟨["salary"], [[some (Value.num 5)]]⟩]).read 0 ∧
    ((transform_data_heap (Heap.mk [⟨["salary"], [[some (Value.num 5)]]⟩]) 0).2).map
        (transform_data_heap (Heap.mk [⟨["salary"], [[some (Value.num 5)]]⟩]) 0).1.read =
      transform_data ((Heap.mk [⟨["salary"], [[some (Value.num 5)]]⟩]).read 0)) :=
  ⟨by decide, claim10_transform_no_mutation _ 0 (by decide)⟩
